import Mathlib

/-!
Shallow embedding of the Learning Tracker core (src/learning_tracker.py).

A Python resource is a JSON object (dict); fields may be absent when the
backing file was written externally, so every field except `id` is an
`Option`.  `add_resource` always fills every field.  Python dict access
`r["k"]` is embedded as a match on the `Option` (raising `KeyError` becomes
an `Except.error`), while `r.get("k", d)` is embedded as `Option.getD`.

The tracker state carries both the in-memory list (`self.resources`) and the
content of the backing file (`saved`); `_save_data` copies the former into
the latter.
-/

structure Resource where
  id : Nat
  title : Option String := none
  type : Option String := none
  url : Option String := none
  tags : Option (List String) := none
  concepts : Option (List String) := none
  notes : Option String := none
  date_added : Option String := none
  status : Option String := none
deriving Repr, DecidableEq

structure TrackerState where
  resources : List Resource
  saved : List Resource
deriving Repr, DecidableEq

/-- Embeds `_save_data`: the whole in-memory list is written to the file. -/
def save_data (s : TrackerState) : TrackerState :=
  { s with saved := s.resources }

def emptyState : TrackerState := { resources := [], saved := [] }

/-- Embeds `add_resource` (learning_tracker.py lines 30-53).  The `now`
argument stands for `datetime.now().strftime(...)`.  The created resource is
returned together with the new state, as in the source. -/
def add_resource (s : TrackerState) (title type url : String)
    (tags : List String) (notes : String) (concepts : List String)
    (now : String) : TrackerState × Resource :=
  let r : Resource :=
    { id := s.resources.length + 1
      title := some title
      type := some type
      url := some url
      tags := some tags
      concepts := some concepts
      notes := some notes
      date_added := some now
      status := some "in_progress" }
  (save_data { s with resources := s.resources ++ [r] }, r)

/-- Embeds the loop of `update_status` (lines 83-88): the first resource with
matching id gets its status replaced; `none` when no id matches. -/
def update_status_list (rid : Nat) (st : String) :
    List Resource → Option (List Resource)
  | [] => none
  | r :: t =>
    if r.id == rid then some ({ r with status := some st } :: t)
    else (update_status_list rid st t).map (fun t2 => r :: t2)

/-- Embeds `update_status` (lines 81-90): on success the store is saved and
`true` is returned; on failure the state is untouched and `false` returned. -/
def update_status (s : TrackerState) (rid : Nat) (st : String) :
    TrackerState × Bool :=
  match update_status_list rid st s.resources with
  | some rs => (save_data { s with resources := rs }, true)
  | none => (s, false)

/-- Prefix test on character lists (`List.isPrefixOf` with `==` on `Char`). -/
def startsWith : List Char → List Char → Bool
  | _, [] => true
  | [], _ :: _ => false
  | c :: t, n :: ns => c == n && startsWith t ns

/-- Embeds Python's substring operator `needle in hay` on strings: `needle`
occurs contiguously in `hay`. -/
def strIn (needle : List Char) : List Char → Bool
  | [] => needle.isEmpty
  | c :: t => startsWith (c :: t) needle || strIn needle t

def pySubstr (needle hay : String) : Bool := strIn needle.data hay.data

/-- Embeds Python's `str.lower()` (ASCII case folding, the only case the
repository exercises). -/
def pyLower (s : String) : String := ⟨s.data.map Char.toLower⟩

/-- Embeds `list_resources` (lines 55-65).  A `none` filter is Python's
falsy `None` / empty string. -/
def list_resources (rs : List Resource) (status : Option String)
    (tag : Option String) : List Resource :=
  let f1 := match status with
    | none => rs
    | some st => rs.filter (fun r => r.status == some st)
  match tag with
  | none => f1
  | some tg =>
    f1.filter (fun r => ((r.tags.getD []).map pyLower).contains (pyLower tg))

/-- Embeds the match condition of `search` (lines 73-76), including Python's
short-circuit evaluation order: `resource["title"]` is read first, and
`resource["notes"]` only if the title did not match; a missing key raises
(here: `Except.error`).  `tags`/`concepts` use `.get(..., [])`. -/
def resourceMatches (ql : String) (r : Resource) : Except String Bool :=
  match r.title with
  | none => Except.error "KeyError: title"
  | some t =>
    if pySubstr ql (pyLower t) then Except.ok true
    else
      match r.notes with
      | none => Except.error "KeyError: notes"
      | some n =>
        if pySubstr ql (pyLower n) then Except.ok true
        else Except.ok
          ((r.tags.getD []).any (fun tg => pySubstr ql (pyLower tg)) ||
           (r.concepts.getD []).any (fun c => pySubstr ql (pyLower c)))

def searchAux (ql : String) : List Resource → Except String (List Resource)
  | [] => Except.ok []
  | r :: t =>
    match resourceMatches ql r with
    | Except.error e => Except.error e
    | Except.ok b =>
      match searchAux ql t with
      | Except.error e => Except.error e
      | Except.ok rest => Except.ok (if b then r :: rest else rest)

/-- Embeds `search` (lines 67-79): lowercase the query once, then keep, in
store order, the resources whose match test succeeds; the first `KeyError`
aborts the whole call, as the Python loop would. -/
def search (rs : List Resource) (q : String) : Except String (List Resource) :=
  searchAux (pyLower q) rs

/-- Embeds `set.add` on the adjacency sets: Python sets are modelled as
duplicate-free lists, insertion only when absent. -/
def setAdd (s : List String) (x : String) : List String :=
  if s.contains x then s else s ++ [x]

/-- Embeds `graph[k].add(v)` on a `defaultdict(set)` modelled as an
association list: accessing a missing key creates it. -/
def graphAdd : List (String × List String) → String → String →
    List (String × List String)
  | [], k, v => [(k, [v])]
  | (k2, s) :: t, k, v =>
    if k2 == k then (k2, setAdd s v) :: t else (k2, s) :: graphAdd t k v

/-- Dictionary lookup with default `∅` / `[]`, as in `graph.get(concept, set())`
and `graph.get(concept, [])`. -/
def graphGet : List (String × List String) → String → List String
  | [], _ => []
  | (k2, s) :: t, x => if k2 == x then s else graphGet t x

/-- Embeds the double loop of `build_knowledge_graph` (lines 100-103) for one
resource's concept list: for each position `i` and each later position `j`,
`graph[c_i].add(c_j); graph[c_j].add(c_i)`. -/
def addPairs : List (String × List String) → List String →
    List (String × List String)
  | g, [] => g
  | g, c :: rest =>
    addPairs (rest.foldl (fun g2 c2 => graphAdd (graphAdd g2 c c2) c2 c) g) rest

/-- Embeds `build_knowledge_graph` (lines 92-105). -/
def build_knowledge_graph (rs : List Resource) : List (String × List String) :=
  rs.foldl (fun g r => addPairs g (r.concepts.getD [])) []

/-- Embeds `get_related_concepts` (lines 107-110). -/
def get_related_concepts (rs : List Resource) (concept : String) : List String :=
  graphGet (build_knowledge_graph rs) concept

/-- Embeds the counter update `by_status[key] += 1` on a `defaultdict(int)`
materialised as an association list. -/
def countAdd : List (String × Nat) → String → List (String × Nat)
  | [], k => [(k, 1)]
  | (k2, n) :: t, k =>
    if k2 == k then (k2, n + 1) :: t else (k2, n) :: countAdd t k

/-- Lookup of a counter; a missing key counts as zero. -/
def countGet : List (String × Nat) → String → Nat
  | [], _ => 0
  | (k2, n) :: t, x => if k2 == x then n else countGet t x

/-- Embeds `all_concepts.update(xs)` on a Python set modelled as a
duplicate-free list. -/
def setUnion (s : List String) (xs : List String) : List String :=
  xs.foldl setAdd s

/-- Accumulator of the single pass of `get_statistics` (lines 120-124):
`by_status`, `by_type`, `all_concepts`, `all_tags`. -/
structure StatAcc where
  by_status : List (String × Nat)
  by_type : List (String × Nat)
  all_concepts : List String
  all_tags : List String
deriving Repr, DecidableEq

def statStep (acc : StatAcc) (r : Resource) : StatAcc :=
  { by_status := countAdd acc.by_status (r.status.getD "unknown")
    by_type := countAdd acc.by_type (r.type.getD "unknown")
    all_concepts := setUnion acc.all_concepts (r.concepts.getD [])
    all_tags := setUnion acc.all_tags (r.tags.getD []) }

/-- Result record of `get_statistics` (lines 126-132). -/
structure Stats where
  total_resources : Nat
  by_status : List (String × Nat)
  by_type : List (String × Nat)
  unique_concepts : Nat
  unique_tags : Nat
deriving Repr, DecidableEq

/-- Embeds `get_statistics` (lines 112-132): one pass over the resources. -/
def get_statistics (rs : List Resource) : Stats :=
  let acc := rs.foldl statStep
    { by_status := [], by_type := [], all_concepts := [], all_tags := [] }
  { total_resources := rs.length
    by_status := acc.by_status
    by_type := acc.by_type
    unique_concepts := acc.all_concepts.length
    unique_tags := acc.all_tags.length }

/-- The three documented status values (learning_tracker.py line 47). -/
def validStatus (s : String) : Bool :=
  s == "in_progress" || s == "completed" || s == "archived"

/-- Invariant claimed for reachable stores: every resource carries a status
field holding one of the three documented values. -/
def StatusInv (rs : List Resource) : Prop :=
  ∀ r ∈ rs, r.status.any validStatus = true

/-- Predicate of the spec data model: the fields `search` reads with bare
indexing are present. -/
def HasSearchFields (rs : List Resource) : Prop :=
  ∀ r ∈ rs, r.title.isSome ∧ r.notes.isSome

/-- Written from the spec wording of §4.2 (refinement target for `search`):
a resource matches when the lowercase query is a substring of the lowercase
title, or notes, or of some lowercase tag or concept. -/
def specMatches (q : String) (r : Resource) : Bool :=
  pySubstr (pyLower q) (pyLower (r.title.getD "")) ||
  pySubstr (pyLower q) (pyLower (r.notes.getD "")) ||
  (r.tags.getD []).any (fun t => pySubstr (pyLower q) (pyLower t)) ||
  (r.concepts.getD []).any (fun c => pySubstr (pyLower q) (pyLower c))

/-- Argument bundle of one `add_resource` call. -/
structure AddArgs where
  title : String
  type : String
  url : String
  tags : List String
  notes : String
  concepts : List String
  now : String
deriving Repr, DecidableEq

def applyAdd (s : TrackerState) (a : AddArgs) : TrackerState :=
  (add_resource s a.title a.type a.url a.tags a.notes a.concepts a.now).1

/-- Runs a sequence of `add_resource` calls. -/
def runAdds (s : TrackerState) (l : List AddArgs) : TrackerState :=
  l.foldl applyAdd s

/-! Concrete stores used by counterexamples and witnesses. -/

def dupResource : Resource :=
  { id := 1, title := some "T", type := some "article", url := some ""
    tags := some [], concepts := some ["a", "a"], notes := some ""
    date_added := some "2024-01-01 00:00:00", status := some "in_progress" }

def xyzResource : Resource :=
  { id := 1, title := some "A", type := some "article", url := some ""
    tags := some [], concepts := some ["x", "y", "z"], notes := some ""
    date_added := some "2024-01-01 00:00:00", status := some "in_progress" }

def soloResource : Resource :=
  { id := 2, title := some "B", type := some "video", url := some ""
    tags := some [], concepts := some ["solo"], notes := some ""
    date_added := some "2024-01-02 00:00:00", status := some "completed" }

/-- A record lacking the `notes` key, as an externally written backing file
can produce. -/
def noNotesResource : Resource :=
  { id := 1, title := some "Alpha", type := some "article", url := some ""
    tags := some ["x"], concepts := some [], notes := none
    date_added := some "d", status := some "in_progress" }

/-- A record lacking the `title` key. -/
def noTitleResource : Resource :=
  { id := 1, title := none, type := some "article", url := some ""
    tags := some [], concepts := some [], notes := some "n"
    date_added := some "d", status := some "in_progress" }

/-- No key of the graph is a member of its own adjacency set. -/
def NoSelf (g : List (String × List String)) : Prop :=
  ∀ x, x ∉ graphGet g x

/-- The adjacency structure is symmetric. -/
def Symm (g : List (String × List String)) : Prop :=
  ∀ a b, b ∈ graphGet g a → a ∈ graphGet g b

/-- The string `c` is not a key of the association list `g`. -/
def KeyAbsent (c : String) (g : List (String × List String)) : Prop :=
  ∀ p ∈ g, p.1 ≠ c

/-- State reached by one `add_resource` call on the empty store. -/
def addedState : TrackerState :=
  (add_resource emptyState "T" "article" "" [] "" [] "2024-01-01 00:00:00").1

/-- State whose first call of the C2 counterexample reaches: the status
string "bogus" is outside the documented domain. -/
def bogusPair : TrackerState × Bool := update_status addedState 1 "bogus"

def xyzState : TrackerState :=
  { resources := [xyzResource], saved := [xyzResource] }

/-- Store of the C7 scenario: statuses in_progress, completed, completed. -/
def scenarioStore : List Resource :=
  [{ xyzResource with id := 1, status := some "in_progress" },
   { soloResource with id := 2, status := some "completed" },
   { soloResource with id := 3, status := some "completed" }]

/-! Generic fold invariant. -/

theorem foldl_preserve {α β : Type} (P : α → Prop) (f : α → β → α) :
    ∀ (l : List β) (g : α), P g → (∀ g2 x, x ∈ l → P g2 → P (f g2 x)) →
      P (l.foldl f g)
  | [], _, hg, _ => hg
  | x :: t, g, hg, hstep => by
    simp only [List.foldl_cons]
    exact foldl_preserve P f t (f g x) (hstep g x (by simp) hg)
      (fun g2 y hy => hstep g2 y (by simp [hy]))

/-! Lemmas about the set / dictionary primitives. -/

theorem mem_setAdd {s : List String} {v x : String} :
    x ∈ setAdd s v ↔ x ∈ s ∨ x = v := by
  unfold setAdd
  split
  next hc =>
    have hv : v ∈ s := by simpa using hc
    constructor
    · exact fun h => Or.inl h
    · rintro (h | rfl)
      · exact h
      · exact hv
  next hc => simp

theorem nodup_setAdd {s : List String} {v : String} (h : s.Nodup) :
    (setAdd s v).Nodup := by
  unfold setAdd
  split
  next hc => exact h
  next hc =>
    have hv : v ∉ s := by simpa using hc
    simp [List.nodup_append, h, hv]

theorem graphGet_graphAdd (g : List (String × List String)) (k v x : String) :
    graphGet (graphAdd g k v) x =
      if x = k then setAdd (graphGet g x) v else graphGet g x := by
  induction g with
  | nil =>
    by_cases hx : x = k
    · subst hx; simp [graphAdd, graphGet, setAdd]
    · simp [graphAdd, graphGet, hx, Ne.symm hx]
  | cons p t ih =>
    obtain ⟨k2, s⟩ := p
    by_cases h2 : k2 = k
    · subst h2
      by_cases hx : x = k2
      · subst hx; simp [graphAdd, graphGet]
      · simp [graphAdd, graphGet, hx, Ne.symm hx]
    · by_cases hx : x = k2
      · subst hx
        simp [graphAdd, graphGet, h2, Ne.symm h2]
      · simp [graphAdd, graphGet, h2, hx, Ne.symm hx, ih]

/-- Membership after the two `add` calls done for one ordered pair of the
inner loop: the edge `c1-c2` is present in both directions and nothing else
changed. -/
theorem mem_graphGet_pair (g : List (String × List String)) (c1 c2 a b : String) :
    b ∈ graphGet (graphAdd (graphAdd g c1 c2) c2 c1) a ↔
      b ∈ graphGet g a ∨ (a = c1 ∧ b = c2) ∨ (a = c2 ∧ b = c1) := by
  rw [graphGet_graphAdd, graphGet_graphAdd]
  by_cases h2 : a = c2
  · subst h2
    by_cases h1 : a = c1
    · subst h1
      simp [mem_setAdd]
    · simp [h1, mem_setAdd]
  · by_cases h1 : a = c1
    · subst h1
      simp [h2, mem_setAdd]
    · simp [h1, h2]

theorem symm_pair {g : List (String × List String)} (hg : Symm g)
    (c1 c2 : String) : Symm (graphAdd (graphAdd g c1 c2) c2 c1) := by
  intro a b hb
  rw [mem_graphGet_pair] at hb ⊢
  rcases hb with h | ⟨rfl, rfl⟩ | ⟨rfl, rfl⟩
  · exact Or.inl (hg a b h)
  · exact Or.inr (Or.inr ⟨rfl, rfl⟩)
  · exact Or.inr (Or.inl ⟨rfl, rfl⟩)

theorem noself_pair {g : List (String × List String)} (hg : NoSelf g)
    {c1 c2 : String} (hne : c1 ≠ c2) :
    NoSelf (graphAdd (graphAdd g c1 c2) c2 c1) := by
  intro x hx
  rw [mem_graphGet_pair] at hx
  rcases hx with h | ⟨rfl, rfl⟩ | ⟨rfl, rfl⟩
  · exact hg x h
  · exact hne rfl
  · exact hne rfl

theorem keyAbsent_graphAdd {c : String} {g : List (String × List String)}
    (hg : KeyAbsent c g) {k : String} (hk : k ≠ c) (v : String) :
    KeyAbsent c (graphAdd g k v) := by
  induction g with
  | nil =>
    intro p hp
    simp [graphAdd] at hp
    subst hp
    exact hk
  | cons p t ih =>
    obtain ⟨k2, s⟩ := p
    have hk2 : k2 ≠ c := hg (k2, s) (by simp)
    have ht : KeyAbsent c t := fun q hq => hg q (by simp [hq])
    intro q hq
    by_cases h2 : k2 = k
    · simp [graphAdd, h2] at hq
      rcases hq with rfl | hq
      · exact hk
      · exact ht q hq
    · simp [graphAdd, h2] at hq
      rcases hq with rfl | hq
      · exact hk2
      · exact ih ht q hq

theorem graphGet_of_keyAbsent {c : String} {g : List (String × List String)}
    (hg : KeyAbsent c g) : graphGet g c = [] := by
  induction g with
  | nil => rfl
  | cons p t ih =>
    obtain ⟨k2, s⟩ := p
    have hk2 : k2 ≠ c := hg (k2, s) (by simp)
    simp [graphGet, hk2]
    exact ih (fun q hq => hg q (by simp [hq]))

/-! Invariants through the inner loop, `addPairs` and the whole build. -/

theorem symm_inner (c : String) (rest : List String)
    (g : List (String × List String)) (hg : Symm g) :
    Symm (rest.foldl (fun g2 c2 => graphAdd (graphAdd g2 c c2) c2 c) g) :=
  foldl_preserve Symm _ rest g hg (fun g2 c2 _ h => symm_pair h c c2)

theorem symm_addPairs : ∀ (l : List String) (g : List (String × List String)),
    Symm g → Symm (addPairs g l)
  | [], _, hg => hg
  | c :: rest, g, hg => by
    simp only [addPairs]
    exact symm_addPairs rest _ (symm_inner c rest g hg)

theorem noself_inner (c : String) (rest : List String) (hc : c ∉ rest)
    (g : List (String × List String)) (hg : NoSelf g) :
    NoSelf (rest.foldl (fun g2 c2 => graphAdd (graphAdd g2 c c2) c2 c) g) :=
  foldl_preserve NoSelf _ rest g hg
    (fun g2 c2 hmem h => noself_pair h (fun he => hc (by rw [he]; exact hmem)))

theorem noself_addPairs : ∀ (l : List String), l.Nodup →
    ∀ (g : List (String × List String)), NoSelf g → NoSelf (addPairs g l)
  | [], _, _, hg => hg
  | c :: rest, hl, g, hg => by
    simp only [addPairs]
    exact noself_addPairs rest (List.nodup_cons.mp hl).2 _
      (noself_inner c rest (List.nodup_cons.mp hl).1 g hg)

theorem keyAbsent_inner {c : String} (cc : String) (rest : List String)
    (hcc : cc ≠ c) (hrest : ∀ x ∈ rest, x ≠ c)
    (g : List (String × List String)) (hg : KeyAbsent c g) :
    KeyAbsent c (rest.foldl (fun g2 c2 => graphAdd (graphAdd g2 cc c2) c2 cc) g) :=
  foldl_preserve (KeyAbsent c) _ rest g hg
    (fun g2 c2 hmem h =>
      keyAbsent_graphAdd (keyAbsent_graphAdd h hcc c2) (hrest c2 hmem) cc)

theorem keyAbsent_addPairs {c : String} : ∀ (l : List String),
    (c ∈ l → l.length ≤ 1) → ∀ (g : List (String × List String)),
    KeyAbsent c g → KeyAbsent c (addPairs g l)
  | [], _, _, hg => hg
  | [_], _, g, hg => by
    simp only [addPairs, List.foldl_nil]
    exact hg
  | c1 :: c2 :: rest, hlen, g, hg => by
    have hnotin : ¬ c ∈ c1 :: c2 :: rest := by
      intro hmem
      have h := hlen hmem
      simp at h
    have hc1 : c1 ≠ c := fun he => hnotin (by simp [he])
    have hrest : ∀ x ∈ c2 :: rest, x ≠ c := by
      intro x hx he
      exact hnotin (by rw [← he]; exact List.mem_cons_of_mem _ hx)
    simp only [addPairs]
    exact keyAbsent_addPairs (c2 :: rest)
      (fun hmem => absurd (List.mem_cons_of_mem c1 hmem) hnotin)
      _ (keyAbsent_inner c1 (c2 :: rest) hc1 hrest g hg)

theorem noself_build (rs : List Resource)
    (h : ∀ r ∈ rs, (r.concepts.getD []).Nodup) :
    NoSelf (build_knowledge_graph rs) := by
  unfold build_knowledge_graph
  refine foldl_preserve NoSelf _ rs [] ?_ ?_
  · intro x hx
    simp [graphGet] at hx
  · exact fun g r hr hg => noself_addPairs _ (h r hr) g hg

theorem symm_build (rs : List Resource) : Symm (build_knowledge_graph rs) := by
  unfold build_knowledge_graph
  refine foldl_preserve Symm _ rs [] ?_ ?_
  · intro a b hb
    simp [graphGet] at hb
  · exact fun g r _ hg => symm_addPairs _ g hg

theorem keyAbsent_build {c : String} (rs : List Resource)
    (h : ∀ r ∈ rs, c ∈ r.concepts.getD [] → (r.concepts.getD []).length ≤ 1) :
    KeyAbsent c (build_knowledge_graph rs) := by
  unfold build_knowledge_graph
  refine foldl_preserve (KeyAbsent c) _ rs [] ?_ ?_
  · intro p hp
    simp at hp
  · exact fun g r hr hg => keyAbsent_addPairs _ (h r hr) g hg

/-- C1, as stated, is refuted: when the same concept string occupies two
distinct positions of one resource's concepts list (`["a", "a"]`), the inner
loop pairs position 0 with position 1 and executes `graph["a"].add("a")`, so
`"a"` is related to itself. -/
theorem C1_self_loop_on_duplicate :
    "a" ∈ get_related_concepts [dupResource] "a" := by decide

/-- C1 (amended): for every store in which no resource's concepts list holds
the same string at two distinct positions, a concept is never a member of its
own related-concepts list. -/
theorem C1_no_self_loop (rs : List Resource)
    (h : ∀ r ∈ rs, (r.concepts.getD []).Nodup) (c : String) :
    c ∉ get_related_concepts rs c :=
  noself_build rs h c

/-- Witness for C1_no_self_loop on a concrete store. -/
theorem C1_no_self_loop_witness :
    (∀ r ∈ [xyzResource], (r.concepts.getD []).Nodup) ∧
      "x" ∉ get_related_concepts [xyzResource] "x" :=
  ⟨by decide, C1_no_self_loop [xyzResource] (by decide) "x"⟩

/-- C5: the knowledge graph is symmetric: whenever `b` is among the concepts
related to `a`, `a` is among the concepts related to `b`. -/
theorem C5_graph_symmetric (rs : List Resource) (a b : String)
    (h : b ∈ get_related_concepts rs a) : a ∈ get_related_concepts rs b :=
  symm_build rs a b h

/-- Witness for C5_graph_symmetric on a concrete store. -/
theorem C5_graph_symmetric_witness :
    "y" ∈ get_related_concepts [xyzResource] "x" ∧
      "x" ∈ get_related_concepts [xyzResource] "y" :=
  ⟨by decide, C5_graph_symmetric [xyzResource] "x" "y" (by decide)⟩

/-- C8: a concept that only ever appears in resources whose concepts list has
length at most one gains no edge: it is not a key of the built graph, and its
related-concepts list is empty. -/
theorem C8_singleton_concept_absent (rs : List Resource) (c : String)
    (h : ∀ r ∈ rs, c ∈ r.concepts.getD [] → (r.concepts.getD []).length ≤ 1) :
    (∀ p ∈ build_knowledge_graph rs, p.1 ≠ c) ∧
      get_related_concepts rs c = [] := by
  have hk := keyAbsent_build rs h
  exact ⟨hk, graphGet_of_keyAbsent hk⟩

/-- Witness for C8_singleton_concept_absent on a concrete store. -/
theorem C8_singleton_concept_absent_witness :
    (∀ r ∈ [xyzResource, soloResource],
      "solo" ∈ r.concepts.getD [] → (r.concepts.getD []).length ≤ 1) ∧
    ((∀ p ∈ build_knowledge_graph [xyzResource, soloResource], p.1 ≠ "solo") ∧
      get_related_concepts [xyzResource, soloResource] "solo" = []) :=
  ⟨by decide, C8_singleton_concept_absent [xyzResource, soloResource] "solo"
    (by decide)⟩

/-! Lemmas about `update_status_list`. -/

theorem update_status_list_none {rid : Nat} {st : String} :
    ∀ {rs : List Resource}, (∀ r ∈ rs, r.id ≠ rid) →
      update_status_list rid st rs = none
  | [], _ => rfl
  | r :: t, h => by
    have hr : r.id ≠ rid := h r (by simp)
    simp [update_status_list, hr]
    exact update_status_list_none (fun r2 h2 => h r2 (by simp [h2]))

theorem update_status_list_isSome {rid : Nat} {st : String} :
    ∀ {rs : List Resource}, (∃ r ∈ rs, r.id = rid) →
      ∃ rs2, update_status_list rid st rs = some rs2
  | [], h => by simp at h
  | r :: t, h => by
    by_cases hr : r.id = rid
    · exact ⟨{ r with status := some st } :: t,
        by simp [update_status_list, hr]⟩
    · have ht : ∃ r2 ∈ t, r2.id = rid := by
        rcases h with ⟨r2, hmem, hid⟩
        rcases List.mem_cons.mp hmem with rfl | hmem2
        · exact absurd hid hr
        · exact ⟨r2, hmem2, hid⟩
      obtain ⟨t2, ht2⟩ := @update_status_list_isSome rid st t ht
      exact ⟨r :: t2, by simp [update_status_list, hr, ht2]⟩

theorem update_status_list_idem {rid : Nat} {st : String} :
    ∀ {rs rs2 : List Resource}, update_status_list rid st rs = some rs2 →
      update_status_list rid st rs2 = some rs2
  | [], _, h => by simp [update_status_list] at h
  | r :: t, rs2, h => by
    by_cases hr : r.id = rid
    · simp [update_status_list, hr] at h
      subst h
      simp [update_status_list, hr]
    · simp [update_status_list, hr] at h
      obtain ⟨t2, ht2, rfl⟩ := h
      have := update_status_list_idem ht2
      simp [update_status_list, hr, this]

theorem update_status_list_mem {rid : Nat} {st : String} :
    ∀ {rs rs2 : List Resource}, update_status_list rid st rs = some rs2 →
      ∀ r2 ∈ rs2, r2 ∈ rs ∨ ∃ r ∈ rs, r2 = { r with status := some st }
  | [], _, h => by simp [update_status_list] at h
  | r :: t, rs2, h => by
    by_cases hr : r.id = rid
    · simp [update_status_list, hr] at h
      subst h
      intro r2 h2
      rcases List.mem_cons.mp h2 with rfl | h3
      · exact Or.inr ⟨r, by simp, by simp [hr]⟩
      · exact Or.inl (by simp [h3])
    · simp [update_status_list, hr] at h
      obtain ⟨t2, ht2, rfl⟩ := h
      intro r2 h2
      rcases List.mem_cons.mp h2 with rfl | h3
      · exact Or.inl (by simp)
      · rcases update_status_list_mem ht2 r2 h3 with h4 | ⟨r3, h5, h6⟩
        · exact Or.inl (by simp [h4])
        · exact Or.inr ⟨r3, by simp [h5], h6⟩

/-- C6: when no resource carries the requested id, `update_status` returns
the failure boolean and leaves the state — in-memory list and persisted list
alike — exactly as it was; no exception is possible since the embedding is a
total function. -/
theorem C6_update_status_missing_id (s : TrackerState) (rid : Nat)
    (st : String) (h : ∀ r ∈ s.resources, r.id ≠ rid) :
    update_status s rid st = (s, false) := by
  have hnone : update_status_list rid st s.resources = none :=
    update_status_list_none h
  simp [update_status, hnone]

/-- Witness for C6_update_status_missing_id: the spec scenario
`updateStatus(999, "completed")` on the empty store. -/
theorem C6_update_status_missing_id_witness :
    update_status emptyState 999 "completed" = (emptyState, false) :=
  C6_update_status_missing_id emptyState 999 "completed" (by decide)

/-- C9: `update_status` is idempotent when the id exists: both calls report
success and the second call leaves the state of the first call unchanged. -/
theorem C9_update_status_idempotent (s : TrackerState) (rid : Nat)
    (st : String) (h : ∃ r ∈ s.resources, r.id = rid) :
    (update_status s rid st).2 = true ∧
    (update_status (update_status s rid st).1 rid st).2 = true ∧
    (update_status (update_status s rid st).1 rid st).1 =
      (update_status s rid st).1 := by
  obtain ⟨rs2, hrs2⟩ := @update_status_list_isSome rid st s.resources h
  have hidem := update_status_list_idem hrs2
  simp [update_status, hrs2, hidem, save_data]

/-- Witness for C9_update_status_idempotent on a concrete store. -/
theorem C9_update_status_idempotent_witness :
    (∃ r ∈ xyzState.resources, r.id = 1) ∧
    ((update_status xyzState 1 "completed").2 = true ∧
     (update_status (update_status xyzState 1 "completed").1 1 "completed").2
       = true ∧
     (update_status (update_status xyzState 1 "completed").1 1 "completed").1
       = (update_status xyzState 1 "completed").1) :=
  ⟨⟨xyzResource, by decide, by decide⟩,
    C9_update_status_idempotent xyzState 1 "completed"
      ⟨xyzResource, by decide, by decide⟩⟩

/-- C2, as stated, is refuted: `update_status` validates nothing, so the
reachable state `bogusPair.1` — empty store, one `add_resource`, then
`update_status 1 "bogus"` — accepts and persists the out-of-domain status
string "bogus" while reporting success. -/
theorem C2_status_escapes_domain :
    bogusPair.2 = true ∧
    bogusPair.1.resources.map (fun r => r.status) = [some "bogus"] ∧
    bogusPair.1.saved = bogusPair.1.resources ∧
    validStatus "bogus" = false := by decide

/-- C2 (amended): `add_resource` always creates the status `in_progress`,
and `update_status` keeps every status inside the three-value domain
provided its own `newStatus` argument lies in that domain; for any other
argument the string is stored unvalidated. -/
theorem C2_status_domain_preserved (s : TrackerState)
    (hInv : StatusInv s.resources) (title type url notes now : String)
    (tags concepts : List String) (rid : Nat) (st : String) :
    StatusInv
      ((add_resource s title type url tags notes concepts now).1).resources ∧
    (validStatus st = true →
      StatusInv ((update_status s rid st).1).resources) := by
  constructor
  · intro r hr
    simp [add_resource, save_data] at hr
    rcases hr with hr | hr
    · exact hInv r hr
    · subst hr
      rfl
  · intro hst r hr
    unfold update_status at hr
    cases hul : update_status_list rid st s.resources with
    | none =>
      rw [hul] at hr
      exact hInv r hr
    | some rs2 =>
      rw [hul] at hr
      simp [save_data] at hr
      rcases update_status_list_mem hul r hr with h2 | ⟨r3, _, rfl⟩
      · exact hInv r h2
      · simpa using hst

/-- Witness for C2_status_domain_preserved on a concrete reachable store. -/
theorem C2_status_domain_preserved_witness :
    StatusInv addedState.resources ∧ validStatus "completed" = true ∧
    StatusInv ((update_status addedState 1 "completed").1).resources :=
  ⟨by unfold StatusInv; decide, by decide,
    (C2_status_domain_preserved addedState (by unfold StatusInv; decide) "T2"
      "article" "" "" "now" [] [] 1 "completed").2 (by decide)⟩

/-- The resources list after one `add_resource` call: the old list with one
record appended, whose id is the old length plus one. -/
theorem applyAdd_resources (s : TrackerState) (a : AddArgs) :
    (applyAdd s a).resources = s.resources ++
      [{ id := s.resources.length + 1, title := some a.title,
         type := some a.type, url := some a.url, tags := some a.tags,
         concepts := some a.concepts, notes := some a.notes,
         date_added := some a.now, status := some "in_progress" }] := rfl

/-- C4: the id handed out by `add_resource` is the resource count at
insertion plus one, and therefore, over any sequence of `add` calls starting
from the empty store, the list of ids is `[1, 2, ..., n]`: the k-th added
resource has id k and ids strictly increase. -/
theorem C4_ids_are_positions :
    (∀ (s : TrackerState) (a : AddArgs),
      ((add_resource s a.title a.type a.url a.tags a.notes a.concepts
        a.now).2).id = s.resources.length + 1) ∧
    ∀ l : List AddArgs,
      (runAdds emptyState l).resources.map (fun r => r.id) =
        List.map (fun i => i + 1)
          (List.range (runAdds emptyState l).resources.length) := by
  constructor
  · intro s a
    rfl
  · intro l
    unfold runAdds
    refine foldl_preserve
      (fun s => s.resources.map (fun r => r.id) =
        List.map (fun i => i + 1) (List.range s.resources.length))
      applyAdd l emptyState ?_ ?_
    · rfl
    · intro s a _ hs
      rw [applyAdd_resources]
      simp only [List.map_append, List.length_append, List.map_cons,
        List.map_nil, List.length_cons, List.length_nil, List.range_succ,
        Nat.add_zero]
      rw [hs]

/-! Search characterization. -/

theorem strIn_nil (hay : List Char) : strIn [] hay = true := by
  cases hay <;> simp [strIn, startsWith, List.isEmpty]

theorem pySubstr_empty (hay : String) : pySubstr "" hay = true :=
  strIn_nil hay.data

theorem resourceMatches_eq_spec (q : String) (r : Resource)
    (ht : r.title.isSome) (hn : r.notes.isSome) :
    resourceMatches (pyLower q) r = Except.ok (specMatches q r) := by
  obtain ⟨t, ht2⟩ := Option.isSome_iff_exists.mp ht
  obtain ⟨n, hn2⟩ := Option.isSome_iff_exists.mp hn
  simp only [resourceMatches, specMatches, ht2, hn2, Option.getD_some]
  by_cases h1 : pySubstr (pyLower q) (pyLower t) <;>
    by_cases h2 : pySubstr (pyLower q) (pyLower n) <;>
      simp [h1, h2]

theorem search_eq_filter (rs : List Resource) (q : String)
    (h : HasSearchFields rs) :
    search rs q = Except.ok (rs.filter (specMatches q)) := by
  unfold search
  induction rs with
  | nil => simp [searchAux]
  | cons r t ih =>
    have hr := h r (by simp)
    have ht : HasSearchFields t := fun r2 h2 => h r2 (by simp [h2])
    have hm := resourceMatches_eq_spec q r hr.1 hr.2
    rw [searchAux, hm, ih ht, List.filter_cons]

/-- C3: on any store drawn from the spec data model (title and notes
present), `search` returns exactly the resources satisfying the spec's match
predicate, in store order; queries with equal lowercase forms give equal
results (case-insensitivity), and the empty query returns every resource. -/
theorem C3_search_characterization (rs : List Resource) (q : String)
    (h : HasSearchFields rs) :
    search rs q = Except.ok (rs.filter (specMatches q)) ∧
    (∀ q2, pyLower q2 = pyLower q → search rs q2 = search rs q) ∧
    search rs "" = Except.ok rs := by
  refine ⟨search_eq_filter rs q h, ?_, ?_⟩
  · intro q2 hq
    unfold search
    rw [hq]
  · rw [search_eq_filter rs "" h]
    congr 1
    apply List.filter_eq_self.mpr
    intro r hr
    have h0 : pyLower "" = "" := rfl
    simp [specMatches, h0, pySubstr_empty]

/-- Witness for C3_search_characterization on a concrete store, including
the `search("PYTHON") = search("python")` instance. -/
theorem C3_search_characterization_witness :
    HasSearchFields [xyzResource] ∧
    search [xyzResource] "python" =
      Except.ok ([xyzResource].filter (specMatches "python")) ∧
    search [xyzResource] "PYTHON" = search [xyzResource] "python" ∧
    search [xyzResource] "" = Except.ok [xyzResource] := by
  have h := C3_search_characterization [xyzResource] "python"
    (by unfold HasSearchFields; decide)
  exact ⟨by unfold HasSearchFields; decide, h.1, h.2.1 "PYTHON" (by decide),
    h.2.2⟩

/-- C10: `search` reads `title` and `notes` with bare indexing, so a store
holding a record without one of those keys (reachable only by loading an
externally written backing file) makes `search` fail with a lookup error,
while `list_resources` and `get_statistics` succeed on the same store thanks
to defaulted access; when every resource carries both fields — as all
resources created by `add_resource` do — the error branch is unreachable. -/
theorem C10_search_requires_title_and_notes :
    search [noNotesResource] "zzz" = Except.error "KeyError: notes" ∧
    search [noTitleResource] "zzz" = Except.error "KeyError: title" ∧
    list_resources [noNotesResource] none none = [noNotesResource] ∧
    (get_statistics [noNotesResource]).total_resources = 1 ∧
    ∀ (rs : List Resource) (q : String), HasSearchFields rs →
      ∃ out, search rs q = Except.ok out := by
  refine ⟨rfl, rfl, rfl, rfl, ?_⟩
  intro rs q h
  exact ⟨_, search_eq_filter rs q h⟩

/-- Witness for C10_search_requires_title_and_notes: the no-error branch at
a concrete field-complete store. -/
theorem C10_search_requires_title_and_notes_witness :
    HasSearchFields [xyzResource] ∧
    ∃ out, search [xyzResource] "x" = Except.ok out :=
  ⟨by unfold HasSearchFields; decide,
    C10_search_requires_title_and_notes.2.2.2.2 [xyzResource] "x"
      (by unfold HasSearchFields; decide)⟩

/-! Statistics: the single pass decomposes per accumulator component. -/

theorem statAcc_by_status (rs : List Resource) :
    ∀ a : StatAcc, (rs.foldl statStep a).by_status =
      rs.foldl (fun m r => countAdd m (r.status.getD "unknown")) a.by_status := by
  induction rs with
  | nil => intro a; rfl
  | cons r t ih =>
    intro a
    simp only [List.foldl_cons, ih, statStep]

theorem statAcc_by_type (rs : List Resource) :
    ∀ a : StatAcc, (rs.foldl statStep a).by_type =
      rs.foldl (fun m r => countAdd m (r.type.getD "unknown")) a.by_type := by
  induction rs with
  | nil => intro a; rfl
  | cons r t ih =>
    intro a
    simp only [List.foldl_cons, ih, statStep]

theorem statAcc_all_concepts (rs : List Resource) :
    ∀ a : StatAcc, (rs.foldl statStep a).all_concepts =
      rs.foldl (fun s r => setUnion s (r.concepts.getD [])) a.all_concepts := by
  induction rs with
  | nil => intro a; rfl
  | cons r t ih =>
    intro a
    simp only [List.foldl_cons, ih, statStep]

theorem statAcc_all_tags (rs : List Resource) :
    ∀ a : StatAcc, (rs.foldl statStep a).all_tags =
      rs.foldl (fun s r => setUnion s (r.tags.getD [])) a.all_tags := by
  induction rs with
  | nil => intro a; rfl
  | cons r t ih =>
    intro a
    simp only [List.foldl_cons, ih, statStep]

theorem countGet_countAdd (m : List (String × Nat)) (k x : String) :
    countGet (countAdd m k) x = countGet m x + (if k = x then 1 else 0) := by
  induction m with
  | nil =>
    by_cases h : k = x <;> simp [countAdd, countGet, h]
  | cons p t ih =>
    obtain ⟨k2, n⟩ := p
    by_cases h2 : k2 = k
    · subst h2
      by_cases hx : k2 = x <;> simp [countAdd, countGet, hx]
    · by_cases hx : k2 = x
      · subst hx
        have : k ≠ k2 := fun he => h2 he.symm
        simp [countAdd, countGet, h2, this]
      · simp [countAdd, countGet, h2, hx, ih]

theorem countGet_foldl_countAdd (g : Resource → String) (rs : List Resource) :
    ∀ (m : List (String × Nat)) (x : String),
    countGet (rs.foldl (fun acc r => countAdd acc (g r)) m) x =
      countGet m x + (rs.filter (fun r => g r == x)).length := by
  induction rs with
  | nil => intro m x; simp
  | cons r t ih =>
    intro m x
    simp only [List.foldl_cons, ih, countGet_countAdd, List.filter_cons]
    by_cases h : g r = x <;> simp [h] <;> omega

theorem mem_setUnion (l : List String) :
    ∀ (s : List String) (x : String),
    x ∈ setUnion s l ↔ x ∈ s ∨ x ∈ l := by
  induction l with
  | nil => intro s x; simp [setUnion]
  | cons c t ih =>
    intro s x
    have : setUnion s (c :: t) = setUnion (setAdd s c) t := rfl
    rw [this, ih]
    simp [mem_setAdd]
    tauto

theorem nodup_setUnion (l : List String) :
    ∀ (s : List String), s.Nodup → (setUnion s l).Nodup := by
  induction l with
  | nil => intro s h; exact h
  | cons c t ih =>
    intro s h
    exact ih _ (nodup_setAdd h)

theorem foldl_setUnion_nodup (g : Resource → List String) (rs : List Resource) :
    ∀ (s : List String), s.Nodup →
      (rs.foldl (fun acc r => setUnion acc (g r)) s).Nodup := by
  induction rs with
  | nil => intro s h; exact h
  | cons r t ih =>
    intro s h
    exact ih _ (nodup_setUnion (g r) s h)

theorem mem_foldl_setUnion (g : Resource → List String) (rs : List Resource) :
    ∀ (s : List String) (x : String),
    x ∈ rs.foldl (fun acc r => setUnion acc (g r)) s ↔
      x ∈ s ∨ ∃ r ∈ rs, x ∈ g r := by
  induction rs with
  | nil => intro s x; simp
  | cons r t ih =>
    intro s x
    simp only [List.foldl_cons, ih, mem_setUnion]
    simp
    tauto

theorem foldl_setUnion_length (g : Resource → List String) (rs : List Resource) :
    (rs.foldl (fun acc r => setUnion acc (g r)) []).length =
      ((rs.map g).flatten.toFinset).card := by
  have hnd : (rs.foldl (fun acc r => setUnion acc (g r)) []).Nodup :=
    foldl_setUnion_nodup g rs [] (by simp)
  have hset : (rs.foldl (fun acc r => setUnion acc (g r)) []).toFinset =
      (rs.map g).flatten.toFinset := by
    ext x
    simp [List.mem_toFinset, mem_foldl_setUnion, List.mem_flatten]
  rw [← List.toFinset_card_of_nodup hnd, hset]

/-- C7: `get_statistics` makes one pass; its total is the resource count,
each status / type counter equals the number of resources whose (defaulted
to "unknown" when missing) status / type is that key, and the unique counts
are the cardinalities of the unions of all concepts and of all tags.  The
spec scenario with statuses in_progress, completed, completed yields the
counters 1 and 2. -/
theorem C7_statistics_characterization (rs : List Resource) :
    (get_statistics rs).total_resources = rs.length ∧
    (∀ k, countGet (get_statistics rs).by_status k =
      (rs.filter (fun r => r.status.getD "unknown" == k)).length) ∧
    (∀ k, countGet (get_statistics rs).by_type k =
      (rs.filter (fun r => r.type.getD "unknown" == k)).length) ∧
    (get_statistics rs).unique_concepts =
      ((rs.map (fun r => r.concepts.getD [])).flatten.toFinset).card ∧
    (get_statistics rs).unique_tags =
      ((rs.map (fun r => r.tags.getD [])).flatten.toFinset).card ∧
    countGet (get_statistics scenarioStore).by_status "in_progress" = 1 ∧
    countGet (get_statistics scenarioStore).by_status "completed" = 2 := by
  refine ⟨rfl, ?_, ?_, ?_, ?_, by decide, by decide⟩
  · intro k
    have h1 : (get_statistics rs).by_status =
        rs.foldl (fun m r => countAdd m (r.status.getD "unknown")) [] :=
      statAcc_by_status rs _
    rw [h1, countGet_foldl_countAdd (fun r => r.status.getD "unknown") rs [] k]
    simp [countGet]
  · intro k
    have h1 : (get_statistics rs).by_type =
        rs.foldl (fun m r => countAdd m (r.type.getD "unknown")) [] :=
      statAcc_by_type rs _
    rw [h1, countGet_foldl_countAdd (fun r => r.type.getD "unknown") rs [] k]
    simp [countGet]
  · have h1 : (get_statistics rs).unique_concepts =
        (rs.foldl (fun s r => setUnion s (r.concepts.getD [])) []).length := by
      have := statAcc_all_concepts rs
        { by_status := [], by_type := [], all_concepts := [], all_tags := [] }
      simp [get_statistics, this]
    rw [h1, foldl_setUnion_length]
  · have h1 : (get_statistics rs).unique_tags =
        (rs.foldl (fun s r => setUnion s (r.tags.getD [])) []).length := by
      have := statAcc_all_tags rs
        { by_status := [], by_type := [], all_concepts := [], all_tags := [] }
      simp [get_statistics, this]
    rw [h1, foldl_setUnion_length]
